import Mathlib

/-!
Verification of `src/bazel/cc_wrapper.py` (a Python 2 compiler-invocation
shim).  The script inspects its argument vector, possibly rewrites a linker
response file, appends toolchain-specific flags, and execs the real compiler.

The embedding below models Python 2 byte strings as Lean `String`s, the
`in` substring test as list-infix on the character data, `shlex.split` as
a POSIX shell tokenizer, and `str(sys.argv[1:])` as the Python 2 `repr` of
the list of argument strings.  File I/O is modelled with an explicit map
from paths to line lists; `tempfile.mkstemp` is modelled by an abstract
stream of fresh path names carried in the configuration.
-/

namespace CcWrapper

/-- Backslash character, written numerically. -/
def bslashC : Char := Char.ofNat 92

/-- Single-quote character, written numerically. -/
def squoteC : Char := Char.ofNat 39

/-- Double-quote character, written numerically. -/
def dquoteC : Char := Char.ofNat 34

/-- Python's `needle in haystack` substring test on byte strings. -/
def pyIn (needle hay : String) : Prop := needle.data <:+: hay.data

instance (needle hay : String) : Decidable (pyIn needle hay) :=
  List.decidableInfix needle.data hay.data

/-! ### `shlex.split` (POSIX mode), as used by the wrapper on `cxxflags` -/

/-- Tokenizer states of the POSIX `shlex` model: outside any token, inside a
bare word, inside single/double quotes, or just after an escape character
(outside quotes / inside double quotes). -/
inductive ShMode
  | out | word | squote | dquote | escWord | escDq
deriving DecidableEq

/-- Whitespace recognized by `shlex`: space, tab, linefeed, carriage return. -/
def shWhite (c : Char) : Prop :=
  c = ' ' ∨ c = Char.ofNat 9 ∨ c = Char.ofNat 10 ∨ c = Char.ofNat 13

instance (c : Char) : Decidable (shWhite c) := by
  unfold shWhite; infer_instance

/-- Character-at-a-time worker for the `shlex.split` model.  `acc` is the
current token accumulated in reverse, `hasTok` records whether a token is in
progress (so that quoted empty tokens are emitted). -/
def shlexAux (m : ShMode) (acc : List Char) (hasTok : Bool) :
    List Char → List String
  | [] => if hasTok then [String.mk acc.reverse] else []
  | c :: rest =>
    match m with
    | .out =>
      if shWhite c then shlexAux .out acc hasTok rest
      else if c = bslashC then shlexAux .escWord acc true rest
      else if c = squoteC then shlexAux .squote acc true rest
      else if c = dquoteC then shlexAux .dquote acc true rest
      else shlexAux .word (c :: acc) true rest
    | .word =>
      if shWhite c then String.mk acc.reverse :: shlexAux .out [] false rest
      else if c = bslashC then shlexAux .escWord acc true rest
      else if c = squoteC then shlexAux .squote acc true rest
      else if c = dquoteC then shlexAux .dquote acc true rest
      else shlexAux .word (c :: acc) true rest
    | .escWord => shlexAux .word (c :: acc) true rest
    | .squote =>
      if c = squoteC then shlexAux .word acc true rest
      else shlexAux .squote (c :: acc) true rest
    | .dquote =>
      if c = dquoteC then shlexAux .word acc true rest
      else if c = bslashC then shlexAux .escDq acc true rest
      else shlexAux .dquote (c :: acc) true rest
    | .escDq =>
      if c = dquoteC ∨ c = bslashC then shlexAux .dquote (c :: acc) true rest
      else shlexAux .dquote (c :: bslashC :: acc) true rest

/-- Model of Python's `shlex.split` in POSIX mode. -/
def shlexSplit (s : String) : List String := shlexAux .out [] false s.data

/-! ### Python 2 `repr` of a list of byte strings (`str(sys.argv[1:])`) -/

/-- The `n`-th lowercase hexadecimal digit. -/
def hexDigit (n : Nat) : Char := Nat.digitChar (n % 16)

/-- Python 2 `repr` escaping of one byte inside a string literal quoted by
`q`: backslash and the quote are backslash-escaped, linefeed / carriage
return / tab become `\n` / `\r` / `\t`, other non-printable bytes become
`\xNN`, and every remaining byte stands for itself. -/
def pyCharEsc (q c : Char) : List Char :=
  if c = bslashC then [bslashC, bslashC]
  else if c = q then [bslashC, q]
  else if c = Char.ofNat 10 then [bslashC, 'n']
  else if c = Char.ofNat 13 then [bslashC, 'r']
  else if c = Char.ofNat 9 then [bslashC, 't']
  else if c.toNat < 32 ∨ 127 ≤ c.toNat then
    [bslashC, 'x', hexDigit (c.toNat / 16), hexDigit c.toNat]
  else [c]

/-- Python 2 `repr` quotes a string with `'`, except that a string containing
`'` but no `"` is quoted with `"`. -/
def chooseQuote (s : List Char) : Char :=
  if s.contains squoteC ∧ ¬s.contains dquoteC then dquoteC else squoteC

/-- Python 2 `repr` of one byte string, as a character list. -/
def pyReprL (s : List Char) : List Char :=
  chooseQuote s :: s.flatMap (pyCharEsc (chooseQuote s)) ++ [chooseQuote s]

/-- Comma-space separated join, as produced by Python's list `repr`. -/
def sepJoin : List (List Char) → List Char
  | [] => []
  | [b] => b
  | b :: bs => b ++ ',' :: ' ' :: sepJoin bs

/-- Python 2 `repr` of a list of byte strings, as a character list. -/
def pyStrListL (args : List (List Char)) : List Char :=
  '[' :: sepJoin (args.map pyReprL) ++ [']']

/-- Model of Python 2 `str(args)` for a list of byte strings. -/
def pyStrList (args : List String) : String :=
  String.mk (pyStrListL (args.map String.data))

/-! ### The wrapper program -/

/-- Build-time configuration of the wrapper plus the ambient effect model:
the two real compiler paths and the extra C++ flag string substituted into
the script, the stream of fresh paths handed out by `tempfile.mkstemp`, and
the file system mapping a path to the list of lines obtained by iterating
over the file opened in binary mode. -/
structure Ctx where
  real_cc : String
  real_cxx : String
  cxxflags : String
  tempNames : Nat → String
  fs : String → List String

/-- The terminal `os.execv` call: program path and full argument vector
(element 0 included). -/
structure ExecCall where
  prog : String
  argv : List String
deriving DecidableEq

/-- Observable outcome of one run of `main`: the exec performed and the
files created (path and line contents), in creation order. -/
structure MainResult where
  exec : ExecCall
  writes : List (String × List String)
deriving DecidableEq

/-- One line of `sanitize_flagfile`'s loop body: a line other than
`-lstdc++\n` is copied; `-lstdc++\n` is dropped, unless `cxxflags` contains
`-stdlib=libc++`, in which case `-lc++\n` is written instead. -/
def sanitizeLine (cxxflags line : String) : List String :=
  if line ≠ "-lstdc++\n" then [line]
  else if pyIn "-stdlib=libc++" cxxflags then ["-lc++\n"]
  else []

/-- Model of `sanitize_flagfile`: the lines written to the fresh response file, as a
function of the lines of the original. -/
def sanitize_flagfile (cxxflags : String) (lines : List String) : List String :=
  lines.flatMap (sanitizeLine cxxflags)

/-- The probe test `sys.argv[1:5] == ["-E", "-xc++", "-", "-v"]`. -/
def isProbe (args : List String) : Prop :=
  args.take 4 = ["-E", "-xc++", "-", "-v"]

instance (args : List String) : Decidable (isProbe args) := by
  unfold isProbe; infer_instance

/-- Line 42: the C++ driver is used when `-static-libstdc++` or
`-stdlib=libc++` occurs as an argument token. -/
def selectCompiler (ctx : Ctx) (args : List String) : String :=
  if "-static-libstdc++" ∈ args ∨ "-stdlib=libc++" ∈ args then ctx.real_cxx
  else ctx.real_cc

/-- Line 50: the rewriting branch runs when `-static-libstdc++` occurs as an
argument token or `-stdlib=libc++` occurs inside `cxxflags`. -/
def transformTriggered (ctx : Ctx) (args : List String) : Prop :=
  "-static-libstdc++" ∈ args ∨ pyIn "-stdlib=libc++" ctx.cxxflags

instance (ctx : Ctx) (args : List String) :
    Decidable (transformTriggered ctx args) := by
  unfold transformTriggered; infer_instance

/-- Lines 52-55: the rewritten vector starts from the shell-split `cxxflags`
when `cxxflags` is non-empty and `-std=c++` occurs inside `str(sys.argv[1:])`,
and from the empty list otherwise. -/
def initialArgv (ctx : Ctx) (args : List String) : List String :=
  if ctx.cxxflags ≠ "" ∧ pyIn "-std=c++" (pyStrList args) then
    shlexSplit ctx.cxxflags
  else []

/-- Lines 56-70: the per-argument rewriting loop.  `n` counts the `mkstemp`
calls made so far; the result is the rewritten tokens plus the files created
(path and sanitized contents). -/
def transformLoop (ctx : Ctx) :
    List String → Nat → List String × List (String × List String)
  | [], _ => ([], [])
  | arg :: rest, n =>
    if arg = "-lstdc++" then
      (if pyIn "-stdlib=libc++" ctx.cxxflags then
        "-lc++" :: (transformLoop ctx rest n).1
       else (transformLoop ctx rest n).1,
       (transformLoop ctx rest n).2)
    else if "-Wl,@".data <+: arg.data then
      (("-Wl,@" ++ ctx.tempNames n) :: (transformLoop ctx rest (n + 1)).1,
       (ctx.tempNames n,
         sanitize_flagfile ctx.cxxflags (ctx.fs (String.mk (arg.data.drop 5)))) ::
           (transformLoop ctx rest (n + 1)).2)
    else
      (arg :: (transformLoop ctx rest n).1, (transformLoop ctx rest n).2)

/-- Lines 50-72: the `argv` value after the optional rewriting branch. -/
def coreArgv (ctx : Ctx) (args : List String) : List String :=
  if transformTriggered ctx args then
    initialArgv ctx args ++ (transformLoop ctx args 0).1
  else args

/-- Lines 74-87: compiler-specific flags appended at the end. -/
def toolchainFlags (compiler : String) : List String :=
  if pyIn "clang" compiler then
    ["-fno-limit-debug-info", "-Wthread-safety", "-Wgnu-conditional-omitted-operand"]
  else if pyIn "gcc" compiler ∨ pyIn "g++" compiler then
    ["-Wno-maybe-uninitialized"]
  else []

/-- The argument list (without element 0) passed to `os.execv` on the
non-probe path. -/
def finalArgv (ctx : Ctx) (args : List String) : List String :=
  coreArgv ctx args ++ toolchainFlags (selectCompiler ctx args)

/-- The files created during a non-probe run. -/
def mainWrites (ctx : Ctx) (args : List String) : List (String × List String) :=
  if transformTriggered ctx args then (transformLoop ctx args 0).2 else []

/-- Model of `main()`: probe passthrough, else compiler selection, optional argument
rewriting, toolchain flags, and the final `os.execv`. -/
def main (ctx : Ctx) (args : List String) : MainResult :=
  if isProbe args then
    { exec := { prog := ctx.real_cxx
                argv := ctx.real_cxx :: (args ++ shlexSplit ctx.cxxflags) }
      writes := [] }
  else
    { exec := { prog := selectCompiler ctx args
                argv := selectCompiler ctx args :: finalArgv ctx args }
      writes := mainWrites ctx args }

/-- Contents of path `p` after the run: the lines written to it if `main`
created it, and its prior contents otherwise. -/
def fsAfter (ctx : Ctx) (args : List String) (p : String) : List String :=
  match (main ctx args).writes.find? (fun w => w.1 == p) with
  | some w => w.2
  | none => ctx.fs p

/-! ### Generic infix decomposition lemmas -/

/-- An infix occurrence in `A ++ B` lies in `A`, lies in `B`, or spans the
boundary with a nonempty suffix of `A` and a nonempty prefix of `B`. -/
theorem infixAppendCases {α : Type} {p A B : List α} (h : p <:+: A ++ B) :
    p <:+: A ∨ p <:+: B ∨
      ∃ p1 p2, p = p1 ++ p2 ∧ p1 ≠ [] ∧ p2 ≠ [] ∧ p1 <:+ A ∧ p2 <+: B := by
  obtain ⟨s, t, hst⟩ := h
  rw [List.append_assoc] at hst
  rcases List.append_eq_append_iff.mp hst with ⟨u, hA, hpt⟩ | ⟨u, _, hB⟩
  · rcases List.append_eq_append_iff.mp hpt with ⟨v, hu, _⟩ | ⟨v, hp, hB2⟩
    · left
      exact ⟨s, v, by rw [hA, hu, List.append_assoc]⟩
    · by_cases hu0 : u = []
      · right; left
        subst hu0
        simp only [List.nil_append] at hp
        exact ⟨[], t, by rw [hB2, hp]; simp⟩
      · by_cases hv0 : v = []
        · left
          subst hv0
          rw [List.append_nil] at hp
          exact ⟨s, [], by rw [hA, hp]; simp⟩
        · right; right
          exact ⟨u, v, hp, hu0, hv0, ⟨s, hA.symm⟩, ⟨t, hB2.symm⟩⟩
  · right; left
    exact ⟨u, t, by rw [hB, List.append_assoc]⟩

/-- A pattern avoiding the character `c` that occurs in `c :: X` occurs
in `X`. -/
theorem infixDropLeftChar {p X : List Char} {c : Char} (hc : c ∉ p)
    (h : p <:+: c :: X) : p <:+: X := by
  rcases List.infix_cons_iff.mp h with hpre | hinf
  · match p, hpre with
    | [], _ => exact ⟨[], X, by simp⟩
    | d :: p', hpre =>
      rcases List.cons_prefix_cons.mp hpre with ⟨rfl, _⟩
      exact absurd (List.mem_cons_self _ _) hc
  · exact hinf

/-- A pattern avoiding the character `c` that occurs in `X ++ [c]` occurs
in `X`. -/
theorem infixDropRightChar {p X : List Char} {c : Char} (hc : c ∉ p)
    (h : p <:+: X ++ [c]) : p <:+: X := by
  rcases infixAppendCases h with h1 | h1 | ⟨p1, p2, hp, _, hp2, _, hpre⟩
  · exact h1
  · match p, h1, hc with
    | [], _, _ => exact ⟨[], X, by simp⟩
    | d :: p', h1, hc =>
      have hd : d ∈ [c] := h1.subset (List.mem_cons_self _ _)
      rw [List.mem_singleton] at hd
      exact absurd (hd ▸ List.mem_cons_self d p') hc
  · cases p2 with
    | nil => exact absurd rfl hp2
    | cons e p2' =>
      obtain ⟨hec, _⟩ := List.cons_prefix_cons.mp hpre
      have hcp : c ∈ p := by
        rw [hp, ← hec]
        exact List.mem_append_right _ (List.mem_cons_self _ _)
      exact absurd hcp hc

/-! ### The `-std=c++` pattern and the Python 2 `repr` escape structure -/

/-- The character data of the pattern `-std=c++`. -/
def stdPat : List Char := "-std=c++".data

/-- Characters that can appear in a multi-character Python 2 escape
sequence. -/
def escAlphabet : List Char :=
  [bslashC, squoteC, dquoteC, 'n', 'r', 't', 'x'] ++
    (List.range 16).map Nat.digitChar

theorem hexDigitMem (n : Nat) : hexDigit n ∈ escAlphabet := by
  unfold hexDigit escAlphabet
  exact List.mem_append_right _
    (List.mem_map_of_mem _ (List.mem_range.mpr (Nat.mod_lt _ (by norm_num))))

/-- Every escape block is either the character itself, or a multi-character
sequence starting with a backslash all of whose characters lie in
`escAlphabet`. -/
theorem escShape (q c : Char) (hq : q = squoteC ∨ q = dquoteC) :
    pyCharEsc q c = [c] ∨
      ((∃ r, pyCharEsc q c = bslashC :: r) ∧
        ∀ d ∈ pyCharEsc q c, d ∈ escAlphabet) := by
  unfold pyCharEsc
  split_ifs with h1 h2 h3 h4 h5 h6
  · right
    refine ⟨⟨_, rfl⟩, ?_⟩
    intro d hd
    simp only [List.mem_cons, List.not_mem_nil, or_false] at hd
    rcases hd with rfl | rfl <;> decide
  · right
    refine ⟨⟨_, rfl⟩, ?_⟩
    intro d hd
    simp only [List.mem_cons, List.not_mem_nil, or_false] at hd
    rcases hd with rfl | rfl
    · decide
    · rcases hq with rfl | rfl <;> decide
  · right
    refine ⟨⟨_, rfl⟩, ?_⟩
    intro d hd
    simp only [List.mem_cons, List.not_mem_nil, or_false] at hd
    rcases hd with rfl | rfl <;> decide
  · right
    refine ⟨⟨_, rfl⟩, ?_⟩
    intro d hd
    simp only [List.mem_cons, List.not_mem_nil, or_false] at hd
    rcases hd with rfl | rfl <;> decide
  · right
    refine ⟨⟨_, rfl⟩, ?_⟩
    intro d hd
    simp only [List.mem_cons, List.not_mem_nil, or_false] at hd
    rcases hd with rfl | rfl <;> decide
  · right
    refine ⟨⟨_, rfl⟩, ?_⟩
    intro d hd
    simp only [List.mem_cons, List.not_mem_nil, or_false] at hd
    rcases hd with rfl | rfl | rfl | rfl
    · decide
    · decide
    · exact hexDigitMem _
    · exact hexDigitMem _
  · left; rfl

theorem escLen (q c : Char) : (pyCharEsc q c).length ≤ 4 := by
  unfold pyCharEsc
  split_ifs <;> simp

/-- A backslash-free prefix of the escaped rendering of `s` is a prefix
of `s` itself: escape blocks other than a single literal character start
with a backslash, so the prefix proceeds literal block by literal block. -/
theorem prefixOfFlatMapEsc (q : Char) (hq : q = squoteC ∨ q = dquoteC) :
    ∀ s u : List Char, bslashC ∉ u → u <+: s.flatMap (pyCharEsc q) →
      u <+: s := by
  intro s
  induction s with
  | nil =>
    intro u _ h
    simp only [List.flatMap_nil] at h
    rw [List.prefix_nil.mp h]
  | cons c s ih =>
    intro u hu h
    match u with
    | [] => exact List.nil_prefix
    | d :: u' =>
      rw [List.flatMap_cons] at h
      rcases escShape q c hq with he | ⟨⟨r, hr⟩, _⟩
      · rw [he, List.singleton_append] at h
        rcases List.cons_prefix_cons.mp h with ⟨rfl, h'⟩
        have hrec := ih u' (fun hm => hu (List.mem_cons_of_mem _ hm)) h'
        exact List.cons_prefix_cons.mpr ⟨rfl, hrec⟩
      · rw [hr, List.cons_append] at h
        rcases List.cons_prefix_cons.mp h with ⟨rfl, _⟩
        exact absurd (List.mem_cons_self _ _) hu

/-- The pattern `-std=c++` occurs in the escaped rendering of `s` only if
it occurs in `s`: its characters are all escape-invariant and none of them
can appear in a multi-character escape block. -/
theorem patInfixFlatMap (q : Char) (hq : q = squoteC ∨ q = dquoteC) :
    ∀ s : List Char, stdPat <:+: s.flatMap (pyCharEsc q) → stdPat <:+: s := by
  intro s
  induction s with
  | nil =>
    intro h
    simp only [List.flatMap_nil, List.infix_nil] at h
    exact absurd h (by decide)
  | cons c s ih =>
    intro h
    rw [List.flatMap_cons] at h
    rcases infixAppendCases h with h1 | h1 | ⟨p1, p2, hp, hp1, _, hsuf, hpre⟩
    · have hl := h1.length_le
      have h4 := escLen q c
      have h8 : stdPat.length = 8 := by decide
      omega
    · exact List.infix_cons (ih h1)
    · obtain ⟨d, p1', rfl⟩ : ∃ d p1', p1 = d :: p1' := by
        cases p1 with
        | nil => exact absurd rfl hp1
        | cons d p1' => exact ⟨d, p1', rfl⟩
      have h' : d :: (p1' ++ p2) = '-' :: "std=c++".data := by
        rw [← List.cons_append, ← hp]; decide
      injection h' with hd hrest
      rcases escShape q c hq with he | ⟨⟨r, hr⟩, hall⟩
      · rw [he] at hsuf
        obtain ⟨w, hw⟩ := hsuf
        match w, hw with
        | [], hw =>
          rw [List.nil_append] at hw
          injection hw with hdc hp1nil
          subst hdc
          rw [hp1nil, List.nil_append] at hrest
          have hpref : p2 <+: s := by
            refine prefixOfFlatMapEsc q hq s p2 ?_ hpre
            rw [hrest]; decide
          obtain ⟨k, hk⟩ := hpref
          have hsp : stdPat = d :: p2 := by
            rw [hp, hp1nil]; rfl
          refine ⟨[], k, ?_⟩
          rw [List.nil_append, hsp, List.cons_append, hk]
        | e :: w', hw =>
          rw [List.cons_append] at hw
          injection hw with _ hw'
          exact absurd hw' (by simp)
      · have hdm : d ∈ pyCharEsc q c := hsuf.subset (List.mem_cons_self _ _)
        have hda := hall d hdm
        rw [hd] at hda
        exact absurd hda (by decide)

theorem chooseQuoteCases (a : List Char) :
    chooseQuote a = squoteC ∨ chooseQuote a = dquoteC := by
  unfold chooseQuote
  split_ifs <;> simp

/-- The pattern `-std=c++` occurs in the `repr` of one string only if it
occurs in the string: it contains neither quote, so the occurrence lies in
the escaped body. -/
theorem patInfixRepr (a : List Char) (h : stdPat <:+: pyReprL a) :
    stdPat <:+: a := by
  have hq := chooseQuoteCases a
  have hqn : chooseQuote a ∉ stdPat := by
    rcases hq with h' | h' <;> rw [h'] <;> decide
  unfold pyReprL at h
  exact patInfixFlatMap _ hq a (infixDropRightChar hqn (infixDropLeftChar hqn h))

/-- The pattern `-std=c++` occurs in a comma-space join only if it occurs in
one of the blocks: it contains neither `,` nor a space. -/
theorem patInfixSepJoin :
    ∀ bs : List (List Char), stdPat <:+: sepJoin bs → ∃ b ∈ bs, stdPat <:+: b := by
  intro bs
  induction bs with
  | nil =>
    intro h
    rw [show sepJoin [] = [] from rfl, List.infix_nil] at h
    exact absurd h (by decide)
  | cons b bs ih =>
    intro h
    cases bs with
    | nil => exact ⟨b, List.mem_singleton_self b, h⟩
    | cons b' bs' =>
      rw [show sepJoin (b :: b' :: bs') = b ++ ',' :: ' ' :: sepJoin (b' :: bs')
        from rfl] at h
      rcases infixAppendCases h with h1 | h1 | ⟨p1, p2, hp, _, hp2, _, hpre⟩
      · exact ⟨b, List.mem_cons_self _ _, h1⟩
      · have h2 := infixDropLeftChar (show ',' ∉ stdPat by decide) h1
        have h3 := infixDropLeftChar (show ' ' ∉ stdPat by decide) h2
        obtain ⟨bf, hbf, hbi⟩ := ih h3
        exact ⟨bf, List.mem_cons_of_mem _ hbf, hbi⟩
      · cases p2 with
        | nil => exact absurd rfl hp2
        | cons e p2' =>
          obtain ⟨hec, _⟩ := List.cons_prefix_cons.mp hpre
          have hcm : ',' ∈ stdPat := by
            rw [hp, ← hec]
            exact List.mem_append_right _ (List.mem_cons_self _ _)
          exact absurd hcm (by decide)

/-- Forward direction over the whole `repr` of the argument list. -/
theorem patInfixOfPyStrListL (args : List (List Char))
    (h : stdPat <:+: pyStrListL args) : ∃ a ∈ args, stdPat <:+: a := by
  unfold pyStrListL at h
  have h1 := infixDropLeftChar (show '[' ∉ stdPat by decide) h
  have h2 := infixDropRightChar (show ']' ∉ stdPat by decide) h1
  obtain ⟨b, hb, hbi⟩ := patInfixSepJoin _ h2
  obtain ⟨a, ha, rfl⟩ := List.mem_map.mp hb
  exact ⟨a, ha, patInfixRepr a hbi⟩

/-- Escaping fixes the pattern `-std=c++` pointwise, so an occurrence in `a`
survives into the escaped body. -/
theorem flatMapEscOfInfix (q : Char) (hq : q = squoteC ∨ q = dquoteC)
    {a : List Char} (h : stdPat <:+: a) :
    stdPat <:+: a.flatMap (pyCharEsc q) := by
  obtain ⟨s, t, hst⟩ := h
  refine ⟨s.flatMap (pyCharEsc q), t.flatMap (pyCharEsc q), ?_⟩
  rw [← hst, List.flatMap_append, List.flatMap_append,
    show stdPat.flatMap (pyCharEsc q) = stdPat from by
      rcases hq with h' | h' <;> rw [h'] <;> decide]

theorem infixReprOfInfix (a : List Char) (h : stdPat <:+: a) :
    stdPat <:+: pyReprL a := by
  obtain ⟨s, t, hst⟩ := flatMapEscOfInfix (chooseQuote a) (chooseQuoteCases a) h
  unfold pyReprL
  refine ⟨chooseQuote a :: s, t ++ [chooseQuote a], ?_⟩
  rw [← hst]
  simp [List.append_assoc]

theorem infixSepJoinOfMem :
    ∀ (bs : List (List Char)) (b : List Char), b ∈ bs →
      ∀ p : List Char, p <:+: b → p <:+: sepJoin bs := by
  intro bs
  induction bs with
  | nil =>
    intro b hb
    exact absurd hb (List.not_mem_nil b)
  | cons b0 bs ih =>
    intro b hb p hp
    cases bs with
    | nil =>
      rw [List.mem_singleton] at hb
      rw [show sepJoin [b0] = b0 from rfl]
      exact hb ▸ hp
    | cons b1 bs' =>
      rw [show sepJoin (b0 :: b1 :: bs') = b0 ++ ',' :: ' ' :: sepJoin (b1 :: bs')
        from rfl]
      rcases List.mem_cons.mp hb with rfl | hb'
      · exact hp.trans (List.prefix_append b _).isInfix
      · obtain ⟨s, t, hst⟩ := ih b hb' p hp
        refine ⟨b0 ++ ',' :: ' ' :: s, t, ?_⟩
        rw [← hst]
        simp [List.append_assoc]

/-- Backward direction over the whole `repr` of the argument list. -/
theorem pyStrListLOfInfix (args : List (List Char)) (a : List Char)
    (ha : a ∈ args) (h : stdPat <:+: a) : stdPat <:+: pyStrListL args := by
  obtain ⟨s, t, hst⟩ :=
    infixSepJoinOfMem (args.map pyReprL) (pyReprL a)
      (List.mem_map_of_mem _ ha) stdPat (infixReprOfInfix a h)
  unfold pyStrListL
  refine ⟨'[' :: s, t ++ [']'], ?_⟩
  rw [← hst]
  simp [List.append_assoc]

/-- The pattern `-std=c++` occurs in `str(sys.argv[1:])` exactly when some argument
contains it as a substring. -/
theorem pyInStrListIff (args : List String) :
    pyIn "-std=c++" (pyStrList args) ↔ ∃ a ∈ args, pyIn "-std=c++" a := by
  constructor
  · intro h
    obtain ⟨ad, had, hi⟩ := patInfixOfPyStrListL (args.map String.data) h
    obtain ⟨a, ha, rfl⟩ := List.mem_map.mp had
    exact ⟨a, ha, hi⟩
  · rintro ⟨a, ha, hi⟩
    exact pyStrListLOfInfix (args.map String.data) a.data
      (List.mem_map_of_mem _ ha) hi

/-! ### Program-level lemmas -/

theorem wlPathNe (s : String) : ("-Wl,@" ++ s) ≠ "-lstdc++" := by
  intro h
  have hd : ("-Wl,@" ++ s).data = "-lstdc++".data := congrArg String.data h
  rw [String.data_append,
    show ("-Wl,@" : String).data = ['-', 'W', 'l', ',', '@'] from rfl,
    show ("-lstdc++" : String).data = ['-', 'l', 's', 't', 'd', 'c', '+', '+'] from rfl,
    List.cons_append, List.cons_append] at hd
  injection hd with h1 h2
  injection h2 with h3 h4
  exact absurd h3 (by decide)

theorem toolchainNoLstd (compiler : String) :
    "-lstdc++" ∉ toolchainFlags compiler := by
  unfold toolchainFlags
  split_ifs <;> decide

theorem loopNoLstd (ctx : Ctx) :
    ∀ (l : List String) (n : Nat), "-lstdc++" ∉ (transformLoop ctx l n).1 := by
  intro l
  induction l with
  | nil => intro n; simp [transformLoop]
  | cons a l ih =>
    intro n
    simp only [transformLoop]
    split_ifs with h1 h2 h3
    · show "-lstdc++" ∉ "-lc++" :: (transformLoop ctx l n).1
      intro hm
      rcases List.mem_cons.mp hm with he | hm'
      · exact absurd he (by decide)
      · exact ih n hm'
    · exact ih n
    · show "-lstdc++" ∉ ("-Wl,@" ++ ctx.tempNames n) :: (transformLoop ctx l (n + 1)).1
      intro hm
      rcases List.mem_cons.mp hm with he | hm'
      · exact wlPathNe _ he.symm
      · exact ih (n + 1) hm'
    · show "-lstdc++" ∉ a :: (transformLoop ctx l n).1
      intro hm
      rcases List.mem_cons.mp hm with he | hm'
      · exact h1 he.symm
      · exact ih n hm'

theorem loopLcMem (ctx : Ctx) (hc : pyIn "-stdlib=libc++" ctx.cxxflags) :
    ∀ (l : List String) (n : Nat), "-lstdc++" ∈ l →
      "-lc++" ∈ (transformLoop ctx l n).1 := by
  intro l
  induction l with
  | nil =>
    intro n h
    exact absurd h (List.not_mem_nil _)
  | cons a l ih =>
    intro n h
    simp only [transformLoop]
    by_cases h1 : a = "-lstdc++"
    · rw [if_pos h1, if_pos hc]
      exact List.mem_cons_self _ _
    · have hm : "-lstdc++" ∈ l := by
        rcases List.mem_cons.mp h with he | h'
        · exact absurd he.symm h1
        · exact h'
      by_cases h2 : "-Wl,@".data <+: a.data
      · rw [if_neg h1, if_pos h2]
        exact List.mem_cons_of_mem _ (ih (n + 1) hm)
      · rw [if_neg h1, if_neg h2]
        exact List.mem_cons_of_mem _ (ih n hm)

theorem initialNoLstd (ctx : Ctx) (args : List String)
    (h : "-lstdc++" ∉ shlexSplit ctx.cxxflags) :
    "-lstdc++" ∉ initialArgv ctx args := by
  unfold initialArgv
  split_ifs with h1
  · exact h
  · exact List.not_mem_nil _

theorem loopWritesTemp (ctx : Ctx) :
    ∀ (l : List String) (n : Nat) (w : String × List String),
      w ∈ (transformLoop ctx l n).2 → ∃ m, w.1 = ctx.tempNames m := by
  intro l
  induction l with
  | nil =>
    intro n w h
    exact absurd h (List.not_mem_nil _)
  | cons a l ih =>
    intro n w h
    simp only [transformLoop] at h
    split_ifs at h with h1 h2 h3
    · exact ih n w h
    · exact ih n w h
    · rcases List.mem_cons.mp h with rfl | h'
      · exact ⟨n, rfl⟩
      · exact ih (n + 1) w h'
    · exact ih n w h

/-- Tokens of the original vector kept verbatim by the rewriting loop:
neither `-lstdc++` nor a `-Wl,@` response-file reference. -/
def survivesB (a : String) : Bool :=
  decide (¬(a = "-lstdc++" ∨ "-Wl,@".data <+: a.data))

theorem survivesSublistLoop (ctx : Ctx) :
    ∀ (l : List String) (n : Nat),
      List.Sublist (l.filter survivesB) (transformLoop ctx l n).1 := by
  intro l
  induction l with
  | nil => intro n; simp [transformLoop]
  | cons a l ih =>
    intro n
    simp only [transformLoop]
    by_cases h1 : a = "-lstdc++"
    · rw [if_pos h1, List.filter_cons_of_neg (by simp [survivesB, h1])]
      show List.Sublist (l.filter survivesB)
        (if pyIn "-stdlib=libc++" ctx.cxxflags then
          "-lc++" :: (transformLoop ctx l n).1 else (transformLoop ctx l n).1)
      split_ifs with h2
      · exact (ih n).cons _
      · exact ih n
    · by_cases h2 : "-Wl,@".data <+: a.data
      · rw [if_neg h1, if_pos h2,
          List.filter_cons_of_neg (by simp [survivesB, h1, h2])]
        exact (ih (n + 1)).cons _
      · rw [if_neg h1, if_neg h2,
          List.filter_cons_of_pos (by simp [survivesB, h1, h2])]
        exact (ih n).cons₂ _

/-! ### Claims -/

/-- C1: for every response file rewritten by the sanitizer, each input line
that is exactly `-lstdc++` followed by a newline is dropped when `cxxflags`
does not contain `-stdlib=libc++` and replaced by the line `-lc++` followed
by a newline when it does; every other line is copied to the output
byte-for-byte, terminator included, in the original order. -/
theorem claim_C1 (cxxflags : String) (lines : List String) :
    sanitize_flagfile cxxflags lines =
      if pyIn "-stdlib=libc++" cxxflags then
        lines.map fun l => if l = "-lstdc++\n" then "-lc++\n" else l
      else
        lines.filter fun l => decide (l ≠ "-lstdc++\n") := by
  induction lines with
  | nil => split <;> rfl
  | cons l ls ih =>
    by_cases hc : pyIn "-stdlib=libc++" cxxflags
    · rw [if_pos hc] at ih ⊢
      show sanitizeLine cxxflags l ++ sanitize_flagfile cxxflags ls = _
      by_cases hl : l = "-lstdc++\n"
      · subst hl
        rw [show sanitizeLine cxxflags "-lstdc++\n" = ["-lc++\n"] from by
          simp [sanitizeLine, hc]]
        simp only [List.map_cons, List.singleton_append, ih, ite_true]
      · rw [show sanitizeLine cxxflags l = [l] from by simp [sanitizeLine, hl]]
        simp only [List.map_cons, if_neg hl, List.singleton_append, ih]
    · rw [if_neg hc] at ih ⊢
      show sanitizeLine cxxflags l ++ sanitize_flagfile cxxflags ls = _
      by_cases hl : l = "-lstdc++\n"
      · subst hl
        rw [show sanitizeLine cxxflags "-lstdc++\n" = [] from by
          simp [sanitizeLine, hc]]
        rw [List.nil_append, ih, List.filter_cons_of_neg (by simp)]
      · rw [show sanitizeLine cxxflags l = [l] from by simp [sanitizeLine, hl]]
        rw [List.singleton_append, ih, List.filter_cons_of_pos (by simp [hl])]

def ctxC2 : Ctx :=
  { real_cc := "/usr/bin/cc", real_cxx := "/usr/bin/c++"
    cxxflags := "-stdlib=libc++", tempNames := fun _ => "tmp", fs := fun _ => [] }

/-- C2 counterexample: with `cxxflags = "-stdlib=libc++"` and argument
vector `["foo.o"]` (not a probe), `-stdlib=libc++` occurs within `cxxflags`,
yet the selected compiler is `real_cc`, not `real_cxx`: compiler selection
only inspects the argument tokens, so an occurrence inside `cxxflags` alone
does not select the C++ compiler, contradicting the claim. -/
theorem claim_C2_cex :
    pyIn "-stdlib=libc++" ctxC2.cxxflags ∧ ¬isProbe ["foo.o"] ∧
      (main ctxC2 ["foo.o"]).exec.prog = "/usr/bin/cc" ∧
      ctxC2.real_cxx = "/usr/bin/c++" ∧ "/usr/bin/cc" ≠ "/usr/bin/c++" := by
  decide

/-- C2 amended: for every non-probe argument vector, `-stdlib=libc++` among
the arguments selects the C++ compiler, and `-stdlib=libc++` within
`cxxflags` triggers the argument transformation; neither occurrence alone
produces the other effect. -/
theorem claim_C2_amended (ctx : Ctx) (args : List String) (h : ¬isProbe args) :
    ("-stdlib=libc++" ∈ args → (main ctx args).exec.prog = ctx.real_cxx) ∧
    (pyIn "-stdlib=libc++" ctx.cxxflags →
      (main ctx args).exec.argv =
        selectCompiler ctx args ::
          (initialArgv ctx args ++ (transformLoop ctx args 0).1 ++
            toolchainFlags (selectCompiler ctx args))) := by
  unfold main
  rw [if_neg h]
  constructor
  · intro hm
    show selectCompiler ctx args = ctx.real_cxx
    unfold selectCompiler
    rw [if_pos (Or.inr hm)]
  · intro hcx
    show selectCompiler ctx args :: finalArgv ctx args = _
    unfold finalArgv coreArgv
    rw [if_pos (show transformTriggered ctx args from Or.inr hcx),
      List.append_assoc]

theorem claim_C2_amended_witness :
    (main ctxC2 ["-stdlib=libc++"]).exec.prog = "/usr/bin/c++" ∧
    (main ctxC2 ["foo.o"]).exec.argv = ["/usr/bin/cc", "foo.o"] := by
  constructor
  · exact ((claim_C2_amended ctxC2 ["-stdlib=libc++"] (by decide)).1
      (by decide)).trans (by decide)
  · exact ((claim_C2_amended ctxC2 ["foo.o"] (by decide)).2 (by decide)).trans
      (by decide)

def ctxC3 : Ctx :=
  { real_cc := "/opt/cc", real_cxx := "/opt/cxx"
    cxxflags := "-stdlib=libc++ -lstdc++", tempNames := fun _ => "tmp"
    fs := fun _ => [] }

/-- C3 counterexample: with `cxxflags = "-stdlib=libc++ -lstdc++"` and
arguments `["-static-libstdc++", "-std=c++11", "-lstdc++"]` the
transformation is triggered, yet the output still contains an `-lstdc++`
token: the shell-split `cxxflags` prepend reintroduces it, contradicting
the claim that the output contains no `-lstdc++` token. -/
theorem claim_C3_cex :
    transformTriggered ctxC3 ["-static-libstdc++", "-std=c++11", "-lstdc++"] ∧
    ¬isProbe ["-static-libstdc++", "-std=c++11", "-lstdc++"] ∧
    "-lstdc++" ∈ finalArgv ctxC3 ["-static-libstdc++", "-std=c++11", "-lstdc++"] := by
  decide

/-- C3 amended: when the transformation is triggered, every argument token
equal to `-lstdc++` is removed; if `cxxflags` contains `-stdlib=libc++` a
`-lc++` token is emitted in its place; the output contains no `-lstdc++`
token provided `-lstdc++` is not among the shell-split tokens of `cxxflags`
(which the prepend would otherwise reintroduce). -/
theorem claim_C3_amended (ctx : Ctx) (args : List String)
    (ht : transformTriggered ctx args)
    (hs : "-lstdc++" ∉ shlexSplit ctx.cxxflags) :
    "-lstdc++" ∉ finalArgv ctx args ∧
      (pyIn "-stdlib=libc++" ctx.cxxflags → "-lstdc++" ∈ args →
        "-lc++" ∈ finalArgv ctx args) := by
  constructor
  · unfold finalArgv coreArgv
    rw [if_pos ht]
    intro hm
    rcases List.mem_append.mp hm with hm1 | hm2
    · rcases List.mem_append.mp hm1 with hi | hl
      · exact initialNoLstd ctx args hs hi
      · exact loopNoLstd ctx args 0 hl
    · exact toolchainNoLstd _ hm2
  · intro hc hm
    unfold finalArgv coreArgv
    rw [if_pos ht]
    exact List.mem_append_left _
      (List.mem_append_right _ (loopLcMem ctx hc args 0 hm))

def ctxC3w : Ctx :=
  { real_cc := "/opt/cc", real_cxx := "/opt/cxx", cxxflags := "-stdlib=libc++"
    tempNames := fun _ => "tmp", fs := fun _ => [] }

theorem claim_C3_amended_witness :
    transformTriggered ctxC3w ["-static-libstdc++", "-lstdc++", "foo.o"] ∧
    "-lstdc++" ∉ finalArgv ctxC3w ["-static-libstdc++", "-lstdc++", "foo.o"] ∧
    "-lc++" ∈ finalArgv ctxC3w ["-static-libstdc++", "-lstdc++", "foo.o"] := by
  have h := claim_C3_amended ctxC3w ["-static-libstdc++", "-lstdc++", "foo.o"]
    (by decide) (by decide)
  exact ⟨by decide, h.1, h.2 (by decide) (by decide)⟩

/-- C4: for every non-probe argument vector, the C++ compiler is selected
exactly when `-static-libstdc++` or `-stdlib=libc++` appears among the
arguments, and the C compiler otherwise. -/
theorem claim_C4 (ctx : Ctx) (args : List String) (h : ¬isProbe args) :
    (("-static-libstdc++" ∈ args ∨ "-stdlib=libc++" ∈ args) →
      (main ctx args).exec.prog = ctx.real_cxx) ∧
    (("-static-libstdc++" ∉ args ∧ "-stdlib=libc++" ∉ args) →
      (main ctx args).exec.prog = ctx.real_cc) := by
  unfold main
  rw [if_neg h]
  constructor
  · intro hm
    show selectCompiler ctx args = ctx.real_cxx
    unfold selectCompiler
    rw [if_pos hm]
  · intro hm
    show selectCompiler ctx args = ctx.real_cc
    unfold selectCompiler
    rw [if_neg (not_or.mpr hm)]

def ctxC4 : Ctx :=
  { real_cc := "/usr/bin/gcc", real_cxx := "/usr/bin/g++", cxxflags := ""
    tempNames := fun _ => "tmp", fs := fun _ => [] }

theorem claim_C4_witness :
    (main ctxC4 ["-static-libstdc++", "x.o"]).exec.prog = "/usr/bin/g++" ∧
    (main ctxC4 ["x.o"]).exec.prog = "/usr/bin/gcc" := by
  constructor
  · exact ((claim_C4 ctxC4 ["-static-libstdc++", "x.o"] (by decide)).1
      (Or.inl (by decide))).trans (by decide)
  · exact ((claim_C4 ctxC4 ["x.o"] (by decide)).2 (by decide)).trans (by decide)

/-- C5: for every non-probe argument vector containing neither
`-static-libstdc++` nor `-stdlib=libc++`, with `cxxflags` not containing
`-stdlib=libc++`, the final argument list passed to the selected compiler is
the input vector unchanged followed only by the toolchain-specific suffix
flags. -/
theorem claim_C5 (ctx : Ctx) (args : List String) (h1 : ¬isProbe args)
    (h2 : "-static-libstdc++" ∉ args) (_h3 : "-stdlib=libc++" ∉ args)
    (h4 : ¬pyIn "-stdlib=libc++" ctx.cxxflags) :
    (main ctx args).exec =
      { prog := selectCompiler ctx args
        argv := selectCompiler ctx args ::
          (args ++ toolchainFlags (selectCompiler ctx args)) } := by
  unfold main
  rw [if_neg h1]
  have hcore : finalArgv ctx args =
      args ++ toolchainFlags (selectCompiler ctx args) := by
    unfold finalArgv coreArgv
    rw [if_neg (show ¬transformTriggered ctx args from fun hor => hor.elim h2 h4)]
  show ExecCall.mk (selectCompiler ctx args)
    (selectCompiler ctx args :: finalArgv ctx args) = _
  rw [hcore]

def ctxC5 : Ctx :=
  { real_cc := "/usr/bin/clang", real_cxx := "/usr/bin/clang++", cxxflags := ""
    tempNames := fun _ => "tmp", fs := fun _ => [] }

theorem claim_C5_witness :
    (main ctxC5 ["a.o", "b.o"]).exec =
      { prog := "/usr/bin/clang"
        argv := ["/usr/bin/clang", "a.o", "b.o", "-fno-limit-debug-info",
          "-Wthread-safety", "-Wgnu-conditional-omitted-operand"] } := by
  exact (claim_C5 ctxC5 ["a.o", "b.o"] (by decide) (by decide) (by decide)
    (by decide)).trans (by decide)

/-- C6: whenever the first four arguments are exactly `-E`, `-xc++`, `-`,
`-v`, the program execs `real_cxx` with the original argument vector
followed by the shell-split tokens of `cxxflags`, creating no files and
performing no other transformation or toolchain flag injection. -/
theorem claim_C6 (ctx : Ctx) (args : List String)
    (h : args.take 4 = ["-E", "-xc++", "-", "-v"]) :
    main ctx args =
      { exec := { prog := ctx.real_cxx
                  argv := ctx.real_cxx :: (args ++ shlexSplit ctx.cxxflags) }
        writes := [] } := by
  unfold main
  rw [if_pos (show isProbe args from h)]

def ctxC6 : Ctx :=
  { real_cc := "/cc", real_cxx := "/cxx", cxxflags := "-X -Y"
    tempNames := fun _ => "tmp", fs := fun _ => [] }

theorem claim_C6_witness :
    main ctxC6 ["-E", "-xc++", "-", "-v", "extra"] =
      { exec := { prog := "/cxx"
                  argv := ["/cxx", "-E", "-xc++", "-", "-v", "extra", "-X", "-Y"] }
        writes := [] } := by
  exact (claim_C6 ctxC6 ["-E", "-xc++", "-", "-v", "extra"] (by decide)).trans
    (by decide)

/-- C7: for every non-probe invocation, the shell-split tokens of `cxxflags`
are prepended to the output argument list exactly when the transformation is
triggered, `cxxflags` is non-empty, and some original argument contains the
substring `-std=c++`; otherwise no `cxxflags` tokens are prepended. -/
theorem claim_C7 (ctx : Ctx) (args : List String) (_h : ¬isProbe args) :
    finalArgv ctx args =
      (if transformTriggered ctx args ∧ ctx.cxxflags ≠ "" ∧
          ∃ a ∈ args, pyIn "-std=c++" a
        then shlexSplit ctx.cxxflags else []) ++
      ((if transformTriggered ctx args then (transformLoop ctx args 0).1
        else args) ++
        toolchainFlags (selectCompiler ctx args)) := by
  unfold finalArgv coreArgv initialArgv
  by_cases ht : transformTriggered ctx args
  · rw [if_pos ht, if_pos ht, List.append_assoc]
    refine congrArg (fun z => z ++ _) (if_congr ?_ rfl rfl)
    constructor
    · rintro ⟨hne, hstd⟩
      exact ⟨ht, hne, (pyInStrListIff args).mp hstd⟩
    · rintro ⟨_, hne, hex⟩
      exact ⟨hne, (pyInStrListIff args).mpr hex⟩
  · rw [if_neg ht, if_neg ht, if_neg (fun hand => ht hand.1),
      List.nil_append]

def ctxC7 : Ctx :=
  { real_cc := "/cc", real_cxx := "/cxx", cxxflags := "-stdlib=libc++"
    tempNames := fun _ => "tmp", fs := fun _ => [] }

theorem claim_C7_witness :
    finalArgv ctxC7 ["-std=c++17", "foo.o"] =
      ["-stdlib=libc++", "-std=c++17", "foo.o"] := by
  exact (claim_C7 ctxC7 ["-std=c++17", "foo.o"] (by decide)).trans (by decide)

/-- C8: for every non-probe invocation, the final argument vector is the
core list followed by exactly the three clang flags when the selected
compiler path contains `clang`, by exactly `-Wno-maybe-uninitialized` when
it otherwise contains `gcc` or `g++`, and by nothing otherwise. -/
theorem claim_C8 (ctx : Ctx) (args : List String) (h : ¬isProbe args) :
    (main ctx args).exec.argv =
      selectCompiler ctx args :: coreArgv ctx args ++
        (if pyIn "clang" (selectCompiler ctx args) then
          ["-fno-limit-debug-info", "-Wthread-safety",
            "-Wgnu-conditional-omitted-operand"]
        else if pyIn "gcc" (selectCompiler ctx args) ∨
            pyIn "g++" (selectCompiler ctx args) then
          ["-Wno-maybe-uninitialized"]
        else []) := by
  unfold main
  rw [if_neg h]
  show selectCompiler ctx args :: finalArgv ctx args = _
  unfold finalArgv toolchainFlags
  rfl

def ctxC8 : Ctx :=
  { real_cc := "/usr/bin/clang", real_cxx := "/usr/bin/clang++"
    cxxflags := "", tempNames := fun _ => "tmp", fs := fun _ => [] }

theorem claim_C8_witness :
    (main ctxC8 ["foo.c"]).exec.argv =
      ["/usr/bin/clang", "foo.c", "-fno-limit-debug-info", "-Wthread-safety",
        "-Wgnu-conditional-omitted-operand"] := by
  exact (claim_C8 ctxC8 ["foo.c"] (by decide)).trans (by decide)

def ctxC9 : Ctx :=
  { real_cc := "/opt/cc", real_cxx := "/opt/cxx", cxxflags := "-stdlib=libc++"
    tempNames := fun _ => "tmp", fs := fun _ => [] }

/-- C9 counterexample: with `cxxflags = "-stdlib=libc++"` and arguments
`["-static-libstdc++", "-lstdc++", "foo.o"]`, the synthesized token `-lc++`
(not an original argument) appears at position 1 of the output, before the
surviving original token `foo.o`: synthesized tokens are not all appended
after the surviving originals, contradicting the claim. -/
theorem claim_C9_cex :
    finalArgv ctxC9 ["-static-libstdc++", "-lstdc++", "foo.o"] =
      ["-static-libstdc++", "-lc++", "foo.o"] ∧
    "-lc++" ∉ (["-static-libstdc++", "-lstdc++", "foo.o"] : List String) ∧
    (finalArgv ctxC9 ["-static-libstdc++", "-lstdc++", "foo.o"]).indexOf
        "-lc++" <
      (finalArgv ctxC9 ["-static-libstdc++", "-lstdc++", "foo.o"]).indexOf
        "foo.o" := by
  decide

/-- C9 amended: for every non-probe invocation, the original tokens that
survive into the output (those that are neither `-lstdc++` nor `-Wl,@`
references) appear in the output in their original relative order, as a
sublist; synthesized tokens may be interleaved: `cxxflags` tokens are
prepended, `-lc++` and rewritten `-Wl,@` tokens take the position of the
token they replace, and toolchain flags are appended at the end. -/
theorem claim_C9_amended (ctx : Ctx) (args : List String) (_h : ¬isProbe args) :
    List.Sublist (args.filter survivesB) (finalArgv ctx args) := by
  unfold finalArgv coreArgv
  by_cases ht : transformTriggered ctx args
  · rw [if_pos ht]
    exact ((survivesSublistLoop ctx args 0).trans
      (List.sublist_append_right _ _)).trans (List.sublist_append_left _ _)
  · rw [if_neg ht]
    exact (List.filter_sublist args).trans (List.sublist_append_left _ _)

theorem claim_C9_amended_witness :
    List.Sublist
      ((["-static-libstdc++", "-lstdc++", "foo.o"] : List String).filter
        survivesB)
      (finalArgv ctxC9 ["-static-libstdc++", "-lstdc++", "foo.o"]) ∧
    (["-static-libstdc++", "-lstdc++", "foo.o"] : List String).filter
        survivesB = ["-static-libstdc++", "foo.o"] := by
  exact ⟨claim_C9_amended ctxC9 ["-static-libstdc++", "-lstdc++", "foo.o"]
    (by decide), by decide⟩

/-- C10: for every invocation, all file writes go to paths freshly handed
out by `mkstemp`; a path distinct from every such temporary name — in
particular the original response file — has the same contents after the run
as before it. -/
theorem claim_C10 (ctx : Ctx) (args : List String) (p : String)
    (h : ∀ n, ctx.tempNames n ≠ p) : fsAfter ctx args p = ctx.fs p := by
  unfold fsAfter
  have hnone : (main ctx args).writes.find? (fun w => w.1 == p) = none := by
    rw [List.find?_eq_none]
    intro w hw
    unfold main at hw
    split_ifs at hw with hp
    · exact absurd hw (List.not_mem_nil _)
    · unfold mainWrites at hw
      split_ifs at hw with ht
      · obtain ⟨m, hm⟩ := loopWritesTemp ctx args 0 w hw
        simp only [beq_iff_eq]
        rw [hm]
        exact h m
      · exact absurd hw (List.not_mem_nil _)
  rw [hnone]

def ctxC10 : Ctx :=
  { real_cc := "/cc", real_cxx := "/cxx", cxxflags := ""
    tempNames := fun _ => "tmpfile"
    fs := fun p => if p = "orig" then ["-la\n", "-lstdc++\n"] else [] }

theorem claim_C10_witness :
    fsAfter ctxC10 ["-static-libstdc++", "-Wl,@orig"] "orig" =
      ["-la\n", "-lstdc++\n"] ∧
    (main ctxC10 ["-static-libstdc++", "-Wl,@orig"]).writes =
      [("tmpfile", ["-la\n"])] := by
  refine ⟨?_, by decide⟩
  exact (claim_C10 ctxC10 ["-static-libstdc++", "-Wl,@orig"] "orig"
    (fun _ => (by decide : ("tmpfile" : String) ≠ "orig"))).trans (by decide)

end CcWrapper
